import Mathlib
/-!
Verification of the vrc-ytdlp supervision layer: a shallow embedding of the
argument filter (src/args.rs), the update manager (src/downloader.rs) and the
process executor with duplicate-instance detection (src/executor.rs),
together with proofs about the spec-level properties of those components.

Logging calls in the source are side-effecting but never observed by control
flow (the spec classifies the logger as a non-failing collaborator), so they
are erased from the embedding.
-/

set_option autoImplicit false

/-! ### Data model (src/models.rs, src/constants.rs) -/

/-- `constants::YT_DLP_EXECUTABLE`. -/
def YT_DLP_EXECUTABLE : String := "yt-dlp.exe"

/-- `constants::VERSION_FILE_NAME`. -/
def VERSION_FILE_NAME : String := "version.txt"

/-- Logging configuration (`models::LoggingConfig`); carried but never read by
the supervised operations. -/
structure LoggingConfig where
  max_file_size_mb : Nat
  max_archived_logs : Nat
  debug_enabled : Bool
deriving DecidableEq, Repr

/-- Application configuration (`models::AppConfig`). `allowed_args` is a
`Vec<String>` in the source, so it is a list queried by `contains`. -/
structure AppConfig where
  ytdlp_location : String
  allowed_args : List String
  custom_args : List String
  cookies : Bool
  cookies_browser : String
  logging : LoggingConfig
deriving DecidableEq, Repr

/-- A fixed logging configuration used to build concrete test policies. -/
def defaultLogging : LoggingConfig := ⟨10, 5, false⟩

/-! ### Argument filter (src/args.rs, `ArgumentParser::filter_arguments_with_logger`) -/

/-- Rust `str::starts_with('-')`: whether the first character is a dash. -/
def startsWithDash (s : String) : Bool := s.data.head? == some '-'

/-- The cookie token built in step 3 of the filter:
`format!("--cookies-from-browser=...", config.cookies_browser)`. -/
def cookieArg (config : AppConfig) : String :=
  "--cookies-from-browser=" ++ config.cookies_browser

/-- Step 1 of `filter_arguments_with_logger`: the `while i < args.len()` loop,
embedded index-for-index. A kept allowed flag may consume the immediately
following token as its value when that token does not start with a dash,
advancing the index past it. -/
def filterLoop (allowed : List String) (args : List String) (i : Nat) : List String :=
  if h : i < args.length then
    let current := args.get ⟨i, h⟩
    if allowed.contains current then
      if h2 : i + 1 < args.length then
        let next := args.get ⟨i + 1, h2⟩
        if !startsWithDash next then
          current :: next :: filterLoop allowed args (i + 2)
        else
          current :: filterLoop allowed args (i + 1)
      else
        current :: filterLoop allowed args (i + 1)
    else
      filterLoop allowed args (i + 1)
  else
    []
termination_by args.length - i

/-- `ArgumentParser::filter_arguments_with_logger` (and therefore also
`filter_arguments`): the filtering loop, then the unconditional append of
`config.custom_args`, then the cookie token when `config.cookies` is set. -/
def filterArguments (args : List String) (config : AppConfig) : List String :=
  let afterFilter := filterLoop config.allowed_args args 0
  let withCustom := afterFilter ++ config.custom_args
  if config.cookies then withCustom ++ [cookieArg config] else withCustom

/-- Structural-recursion form of the filtering loop, used as the proof
vehicle; `filterLoop_eq_filterCore` ties it to the indexed loop. -/
def filterCore (allowed : List String) : List String → List String
  | [] => []
  | a :: rest =>
    if allowed.contains a then
      match rest with
      | [] => [a]
      | v :: rest2 =>
        if !startsWithDash v then a :: v :: filterCore allowed rest2
        else a :: filterCore allowed (v :: rest2)
    else filterCore allowed rest

/-! ### Adjacent pairs of the input, used to speak about flag/value occurrences -/

/-- The list of adjacent token pairs of a token sequence. -/
def adjPairs : List String → List (String × String)
  | a :: b :: rest => (a, b) :: adjPairs (b :: rest)
  | _ => []

/-- Whether an adjacent pair is a dash-led allowed flag followed by a
dash-free value token. -/
def isQualPair (allowed : List String) (p : String × String) : Bool :=
  allowed.contains p.1 && startsWithDash p.1 && !startsWithDash p.2

/-- Flag/value occurrences of the input: adjacent pairs whose first token is an
allowed flag that itself begins with a dash and whose second token does not. -/
def qualPairs (allowed : List String) (l : List String) : List (String × String) :=
  (adjPairs l).filter (isQualPair allowed)

/-! ### Error model (src/error.rs) -/

inductive IoErrorKind where
  | notFound
  | permissionDenied
  | timedOut
  | other
deriving DecidableEq, Repr

/-- `std::io::Error`, reduced to its kind and message. -/
structure IoError where
  kind : IoErrorKind
  msg : String
deriving DecidableEq, Repr

/-- `reqwest::Error`, reduced to what `From<reqwest::Error>` inspects:
whether `is_connect() || is_timeout()` holds, plus a message. -/
structure ReqError where
  connectOrTimeout : Bool
  msg : String
deriving DecidableEq, Repr

/-- `error::AppError`. -/
inductive AppError where
  | Io (e : IoError)
  | Reqwest (e : ReqError)
  | Serde (msg : String)
  | Download (msg : String)
  | Execution (msg : String)
  | Config (msg : String)
  | FileNotFound (msg : String)
  | PermissionDenied (msg : String)
  | NetworkError (msg : String)
deriving DecidableEq, Repr

/-- `impl From<std::io::Error> for AppError`. -/
def ioErrorToAppError (e : IoError) : AppError :=
  match e.kind with
  | .notFound => .FileNotFound e.msg
  | .permissionDenied => .PermissionDenied e.msg
  | _ => .Io e

/-- `impl From<reqwest::Error> for AppError`. -/
def reqErrorToAppError (e : ReqError) : AppError :=
  if e.connectOrTimeout then .NetworkError e.msg else .Reqwest e

/-! ### Update manager (src/downloader.rs) -/

structure GitHubAsset where
  name : String
  browser_download_url : String
deriving DecidableEq, Repr

structure GitHubRelease where
  tag_name : String
  assets : List GitHubAsset
deriving DecidableEq, Repr

/-- `models::VersionInfo`. Timestamps (`DateTime<Utc>`) are modelled as
integer milliseconds since the epoch. -/
structure VersionInfo where
  version : String
  last_check : Option Int
deriving DecidableEq, Repr

/-- `VersionInfo::default()`: empty version string, no last-check timestamp. -/
def versionInfoDefault : VersionInfo := ⟨"", none⟩

/-- The version record file as observed through `serde_json::from_str`:
either a string parsing to a `VersionInfo`, or one that does not. -/
inductive FileData where
  | parsable (v : VersionInfo)
  | unparsable (raw : String)
deriving DecidableEq, Repr

/-- `serde_json::from_str::<VersionInfo>` on the file contents. -/
def parseVersionInfo : FileData → Option VersionInfo
  | .parsable v => some v
  | .unparsable _ => none

/-- The version record file on disk: absent, unreadable, or readable with
some contents. -/
inductive VFile where
  | absent
  | readError (e : IoError)
  | content (d : FileData)
deriving DecidableEq, Repr

/-- Filesystem state touched by the downloader, plus a counter of network
requests issued. -/
structure DlState where
  versionFile : VFile
  binary : Option (List Nat)
  netCalls : Nat
deriving DecidableEq, Repr

/-- Environment oracles for one downloader run: the current time, the GitHub
release endpoint, the asset download endpoint (by URL), and whether
filesystem writes succeed. -/
structure DlEnv where
  now : Int
  release : Except ReqError GitHubRelease
  fileBytes : String → Except ReqError (List Nat)
  writeOk : Bool

/-- `Downloader::get_latest_release`: one network request. -/
def getLatestRelease (env : DlEnv) (s : DlState) :
    Except AppError GitHubRelease × DlState :=
  match env.release with
  | .ok r => (.ok r, { s with netCalls := s.netCalls + 1 })
  | .error e => (.error (reqErrorToAppError e), { s with netCalls := s.netCalls + 1 })

/-- `Downloader::get_latest_version`. -/
def getLatestVersion (env : DlEnv) (s : DlState) : Except AppError String × DlState :=
  match getLatestRelease env s with
  | (.ok r, s1) => (.ok r.tag_name, s1)
  | (.error e, s1) => (.error e, s1)

/-- `Downloader::find_windows_executable`: the asset whose name equals
`YT_DLP_EXECUTABLE`, else a Download error. -/
def findWindowsExecutable (release : GitHubRelease) : Except AppError GitHubAsset :=
  match release.assets.find? (fun a => a.name == YT_DLP_EXECUTABLE) with
  | some a => .ok a
  | none => .error (.Download ("Could not find " ++ YT_DLP_EXECUTABLE ++
      " in release assets"))

/-- `Downloader::download_file`: one network request. -/
def downloadFile (env : DlEnv) (url : String) (s : DlState) :
    Except AppError (List Nat) × DlState :=
  match env.fileBytes url with
  | .ok b => (.ok b, { s with netCalls := s.netCalls + 1 })
  | .error e => (.error (reqErrorToAppError e), { s with netCalls := s.netCalls + 1 })

/-- `Downloader::save_executable`: `fs::write` of the binary. -/
def saveExecutable (env : DlEnv) (bytes : List Nat) (s : DlState) :
    Except AppError Unit × DlState :=
  if env.writeOk then (.ok (), { s with binary := some bytes })
  else (.error (.Io ⟨.other, "write error"⟩), s)

/-- `Downloader::save_version_info_to_file`: serialize and `fs::write`. -/
def saveVersionInfoToFile (env : DlEnv) (vi : VersionInfo) (s : DlState) :
    Except AppError Unit × DlState :=
  if env.writeOk then (.ok (), { s with versionFile := .content (.parsable vi) })
  else (.error (.Io ⟨.other, "write error"⟩), s)

/-- `Downloader::save_version_info`: record the given tag with the current
time as last check. -/
def saveVersionInfo (env : DlEnv) (version : String) (s : DlState) :
    Except AppError Unit × DlState :=
  saveVersionInfoToFile env ⟨version, some env.now⟩ s

/-- `Downloader::download_latest`: fetch release metadata, locate the asset,
fetch its bytes, overwrite the binary, persist the version record. -/
def downloadLatest (env : DlEnv) (s : DlState) : Except AppError Unit × DlState :=
  match getLatestRelease env s with
  | (.error e, s1) => (.error e, s1)
  | (.ok release, s1) =>
    match findWindowsExecutable release with
    | .error e => (.error e, s1)
    | .ok asset =>
      match downloadFile env asset.browser_download_url s1 with
      | (.error e, s2) => (.error e, s2)
      | (.ok bytes, s2) =>
        match saveExecutable env bytes s2 with
        | (.error e, s3) => (.error e, s3)
        | (.ok _, s3) => saveVersionInfo env release.tag_name s3

/-- `Downloader::load_version_info`: absent file yields the default record;
a read failure propagates as an error; unparsable contents yield the default
record (`unwrap_or_default`). -/
def loadVersionInfo (s : DlState) : Except AppError VersionInfo :=
  match s.versionFile with
  | .absent => .ok versionInfoDefault
  | .readError e => .error (ioErrorToAppError e)
  | .content d => .ok ((parseVersionInfo d).getD versionInfoDefault)

/-- `chrono::Duration::days(UPDATE_CHECK_DAYS)` with `UPDATE_CHECK_DAYS = 1`,
in milliseconds. -/
def oneDay : Int := 86400000

/-- `Downloader::should_check_for_updates`: check when more than one day has
passed since the recorded last check, or when no check was ever recorded. -/
def shouldCheckForUpdates (now : Int) (vi : VersionInfo) : Bool :=
  match vi.last_check with
  | some lastCheck => decide (now - lastCheck > oneDay)
  | none => true

/-- `Downloader::check_and_update`. -/
def checkAndUpdate (env : DlEnv) (s : DlState) : Except AppError Unit × DlState :=
  match loadVersionInfo s with
  | .error e => (.error e, s)
  | .ok vi =>
    if !shouldCheckForUpdates env.now vi then (.ok (), s)
    else
      match getLatestVersion env s with
      | (.error e, s1) => (.error e, s1)
      | (.ok latestVersion, s1) =>
        let vi2 : VersionInfo := { vi with last_check := some env.now }
        if vi2.version ≠ latestVersion then downloadLatest env s1
        else saveVersionInfoToFile env vi2 s1

/-! ### Process executor (src/executor.rs) -/

/-- `std::process::ExitStatus`: an exit code when available, `none` when the
platform supplies no code (e.g. the child was killed by a signal). -/
structure ExitStatusM where
  code : Option Int
deriving DecidableEq, Repr

/-- `ExitStatus::success()`. -/
def ExitStatusM.success (st : ExitStatusM) : Bool := st.code == some 0

/-- A spawned child process, modelled by the elapsed time in milliseconds at
which `try_wait` first reports an exit (if ever) and the status it then
reports. -/
structure ChildModel where
  exitTime : Option Nat
  status : ExitStatusM
deriving DecidableEq, Repr

/-- `Child::try_wait` observed at a given elapsed time. -/
def tryWaitAt (c : ChildModel) (t : Nat) : Option ExitStatusM :=
  match c.exitTime with
  | some e => if e ≤ t then some c.status else none
  | none => none

/-- Outcome of `ChildGuard::wait_with_timeout`: the returned result, whether
the child was killed, and whether it was reaped. -/
structure WaitOut where
  result : Except IoErrorKind ExitStatusM
  killed : Bool
  reaped : Bool
deriving Repr

/-- `ChildGuard::wait_with_timeout`: poll `try_wait`; on exit return the
status (the exited child is thereby reaped); once the elapsed time has
reached the timeout, kill the child, reap it with `wait`, and return a
TimedOut error; otherwise sleep 200ms and poll again. -/
def waitWithTimeout (c : ChildModel) (timeoutMs : Nat) (elapsed : Nat) : WaitOut :=
  match tryWaitAt c elapsed with
  | some st => ⟨.ok st, false, true⟩
  | none =>
    if timeoutMs ≤ elapsed then ⟨.error .timedOut, true, true⟩
    else waitWithTimeout c timeoutMs (elapsed + 200)
termination_by timeoutMs - elapsed
decreasing_by omega

/-- One entry of the OS process table as enumerated through `sysinfo`: pid,
process name, and the executable path (as path components) when known. -/
structure ProcInfo where
  pid : Nat
  name : String
  exe : Option (List String)
deriving DecidableEq, Repr

/-- Rust `str::to_ascii_lowercase`: lower each character; `Char.toLower`
lowers exactly the ASCII uppercase letters. -/
def asciiLower (s : String) : String := ⟨s.data.map Char.toLower⟩

/-- `Path::file_name` on a path given as components. -/
def fileName (p : List String) : Option String := p.getLast?

/-- The per-process closure inside `Executor::is_yt_dlp_running`: skip the
supervisor's own pid; match the executable path's file name
case-insensitively; when that is unavailable or does not match, fall back to
the enumerated process name. -/
def procMatches (selfPid : Nat) (targetFileLc : String) (p : ProcInfo) : Bool :=
  if p.pid == selfPid then false
  else
    match p.exe with
    | some exePath =>
      match fileName exePath with
      | some procFile =>
        if asciiLower procFile == targetFileLc then true
        else asciiLower p.name == targetFileLc
      | none => asciiLower p.name == targetFileLc
    | none => asciiLower p.name == targetFileLc

/-- `Executor::is_yt_dlp_running`: the target's file name (lowercased, with
`YT_DLP_EXECUTABLE` as fallback when the path has no file name) compared
against every enumerated process. -/
def isYtDlpRunning (selfPid : Nat) (procs : List ProcInfo)
    (targetPath : List String) : Bool :=
  let targetFileLc := asciiLower ((fileName targetPath).getD YT_DLP_EXECUTABLE)
  procs.any (procMatches selfPid targetFileLc)

/-- Environment for one `Executor::execute` call: the supervisor's own pid,
the OS process table, the managed executable path (as components), whether
the target executable file exists, and the outcome of `Command::spawn`. -/
structure ExecEnv where
  selfPid : Nat
  procs : List ProcInfo
  exePath : List String
  exeExists : Bool
  spawn : Except IoError ChildModel

/-- The error message built on a wait timeout in `Executor::execute`. -/
def timeoutMsg : String :=
  YT_DLP_EXECUTABLE ++ " did not respond within 30 seconds and was terminated"

/-- The error message built for a failed exit status in `Executor::execute`. -/
def exitFailMsg : Option Int → String
  | some code =>
    YT_DLP_EXECUTABLE ++ " exited with non-zero status code: " ++ toString code
  | none => YT_DLP_EXECUTABLE ++ " terminated by signal/unknown status"

/-- `Executor::execute`: duplicate-instance gate, empty-argument gate,
existence check, spawn, guarded wait with the 30-second ceiling, and
exit-status classification. The boolean records whether a child process was
spawned. -/
def executeM (env : ExecEnv) (args : List String) : Except AppError Unit × Bool :=
  if isYtDlpRunning env.selfPid env.procs env.exePath then (.ok (), false)
  else if args.isEmpty then (.ok (), false)
  else if !env.exeExists then
    (.error (.FileNotFound ("Executable not found: " ++
      String.intercalate "/" env.exePath)), false)
  else
    match env.spawn with
    | .error e =>
      (.error (.Execution ("Failed to spawn " ++ YT_DLP_EXECUTABLE ++ ": " ++ e.msg)),
        false)
    | .ok child =>
      match (waitWithTimeout child 30000 0).result with
      | .error k =>
        if k == .timedOut then (.error (.Execution timeoutMsg), true)
        else (.error (.Execution ("Failed while waiting for " ++ YT_DLP_EXECUTABLE)),
          true)
      | .ok status =>
        if !status.success then (.error (.Execution (exitFailMsg status.code)), true)
        else (.ok (), true)

theorem filterCore_nil (allowed : List String) : filterCore allowed [] = [] := rfl

theorem filterCore_neg {allowed : List String} {a : String} (rest : List String)
    (h : allowed.contains a = false) :
    filterCore allowed (a :: rest) = filterCore allowed rest := by
  have h2 : a ∉ allowed := by simpa using h
  cases rest <;> simp [filterCore, h2]

theorem filterCore_pos_nil {allowed : List String} {a : String}
    (h : allowed.contains a = true) : filterCore allowed [a] = [a] := by
  have h2 : a ∈ allowed := by simpa using h
  simp [filterCore, h2]

theorem filterCore_pos_nodash {allowed : List String} {a v : String} (rest : List String)
    (h : allowed.contains a = true) (hv : startsWithDash v = false) :
    filterCore allowed (a :: v :: rest) = a :: v :: filterCore allowed rest := by
  have h2 : a ∈ allowed := by simpa using h
  simp [filterCore, h2, hv]

theorem filterCore_pos_dash {allowed : List String} {a v : String} (rest : List String)
    (h : allowed.contains a = true) (hv : startsWithDash v = true) :
    filterCore allowed (a :: v :: rest) = a :: filterCore allowed (v :: rest) := by
  have h2 : a ∈ allowed := by simpa using h
  simp [filterCore, h2, hv]

theorem filterLoop_eq_filterCore (allowed args : List String) :
    ∀ i, filterLoop allowed args i = filterCore allowed (args.drop i) := by
  have key : ∀ n i, args.length - i ≤ n →
      filterLoop allowed args i = filterCore allowed (args.drop i) := by
    intro n
    induction n with
    | zero =>
      intro i hi
      have hlen : args.length ≤ i := by omega
      rw [filterLoop, dif_neg (by omega), List.drop_eq_nil_of_le hlen, filterCore_nil]
    | succ n ih =>
      intro i hi
      by_cases h : i < args.length
      · have hdrop : args.drop i = args.get ⟨i, h⟩ :: args.drop (i + 1) :=
          List.drop_eq_getElem_cons h
        rw [filterLoop, dif_pos h, hdrop]
        cases hc : allowed.contains (args.get ⟨i, h⟩)
        · rw [filterCore_neg _ hc]
          simp only [hc, Bool.false_eq_true, if_false]
          exact ih (i + 1) (by omega)
        · simp only [hc, if_true]
          by_cases h2 : i + 1 < args.length
          · have hdrop2 : args.drop (i + 1) = args.get ⟨i + 1, h2⟩ :: args.drop (i + 2) :=
              List.drop_eq_getElem_cons h2
            rw [hdrop2, dif_pos h2]
            cases hd : startsWithDash (args.get ⟨i + 1, h2⟩)
            · rw [filterCore_pos_nodash _ hc hd]
              simp only [hd, Bool.not_false, if_true]
              rw [ih (i + 2) (by omega)]
            · rw [filterCore_pos_dash _ hc hd]
              simp only [hd, Bool.not_true, Bool.false_eq_true, if_false]
              rw [ih (i + 1) (by omega), hdrop2]
          · have hnil : args.drop (i + 1) = [] :=
              List.drop_eq_nil_of_le (by omega)
            rw [hnil, dif_neg h2, filterCore_pos_nil hc,
              ih (i + 1) (by omega), hnil, filterCore_nil]
      · rw [filterLoop, dif_neg h, List.drop_eq_nil_of_le (by omega), filterCore_nil]
  intro i
  exact key (args.length - i) i (Nat.le_refl _)

/-- The full filter, rewritten through the structural core. -/
theorem filterArguments_eq (args : List String) (config : AppConfig) :
    filterArguments args config =
      (filterCore config.allowed_args args ++ config.custom_args) ++
        (if config.cookies then [cookieArg config] else []) := by
  unfold filterArguments
  rw [filterLoop_eq_filterCore]
  cases config.cookies <;> simp

example :
    (filterCore ["--get-url"] ["--get-url", "-f", "worst", "https://x"] ++ []) ++
        (if false then [cookieArg ⟨"t", [], [], false, "f", defaultLogging⟩] else [])
      = ["--get-url"] := by decide

theorem adjPairs_nil : adjPairs [] = [] := rfl

theorem adjPairs_single (a : String) : adjPairs [a] = [] := rfl

theorem adjPairs_cons2 (a b : String) (rest : List String) :
    adjPairs (a :: b :: rest) = (a, b) :: adjPairs (b :: rest) := rfl

theorem mem_adjPairs_cons {p : String × String} {l : List String} (a : String)
    (hp : p ∈ adjPairs l) : p ∈ adjPairs (a :: l) := by
  cases l with
  | nil => simp [adjPairs_nil] at hp
  | cons b t => rw [adjPairs_cons2]; exact List.mem_cons_of_mem _ hp

theorem adjPairs_sublist_cons (a : String) (l : List String) :
    List.Sublist (adjPairs l) (adjPairs (a :: l)) := by
  cases l with
  | nil => simp [adjPairs_nil]
  | cons b t => rw [adjPairs_cons2]; exact (List.Sublist.refl _).cons _

theorem adjPairs_append_sublist :
    ∀ (l m : List String), List.Sublist (adjPairs l) (adjPairs (l ++ m))
  | [], _ => by simp [adjPairs_nil]
  | [a], _ => by rw [adjPairs_single]; exact List.nil_sublist _
  | a :: b :: t, m => by
    have h := adjPairs_append_sublist (b :: t) m
    rw [List.cons_append, List.cons_append, adjPairs_cons2, adjPairs_cons2]
    exact h.cons₂ _

/-- C1 core lemma: every token kept by the filtering loop is either an allowed
flag or a dash-free token that immediately follows an allowed flag in the
input. -/
theorem mem_filterCore {allowed : List String} :
    ∀ {l x}, x ∈ filterCore allowed l →
      x ∈ allowed ∨
        ∃ p ∈ adjPairs l, p.1 ∈ allowed ∧ p.2 = x ∧ startsWithDash x = false := by
  intro l
  induction l using filterCore.induct allowed with
  | case1 =>
    intro x hx
    rw [filterCore_nil] at hx
    exact absurd hx (List.not_mem_nil x)
  | case2 a ha =>
    intro x hx
    rw [filterCore_pos_nil ha] at hx
    have hxa : x = a := by simpa using hx
    subst hxa
    exact Or.inl (by simpa using ha)
  | case3 a ha v rest2 hv ih =>
    intro x hx
    have hv2 : startsWithDash v = false := by simpa using hv
    rw [filterCore_pos_nodash _ ha hv2] at hx
    rcases List.mem_cons.mp hx with h1 | hx2
    · subst h1; exact Or.inl (by simpa using ha)
    rcases List.mem_cons.mp hx2 with h2 | hx3
    · refine Or.inr ⟨(a, v), ?_, by simpa using ha, h2.symm, by rw [h2]; exact hv2⟩
      rw [adjPairs_cons2]
      exact List.mem_cons_self _ _
    · rcases ih hx3 with h | ⟨p, hp, h⟩
      · exact Or.inl h
      · exact Or.inr ⟨p, mem_adjPairs_cons _ (mem_adjPairs_cons _ hp), h⟩
  | case4 a ha v rest2 hv ih =>
    intro x hx
    have hv2 : startsWithDash v = true := by simpa using hv
    rw [filterCore_pos_dash _ ha hv2] at hx
    rcases List.mem_cons.mp hx with h1 | hx2
    · subst h1; exact Or.inl (by simpa using ha)
    · rcases ih hx2 with h | ⟨p, hp, h⟩
      · exact Or.inl h
      · exact Or.inr ⟨p, mem_adjPairs_cons _ hp, h⟩
  | case5 a rest2 ha ih =>
    intro x hx
    have ha2 : allowed.contains a = false := by simpa using ha
    rw [filterCore_neg _ ha2] at hx
    rcases ih hx with h | ⟨p, hp, h⟩
    · exact Or.inl h
    · exact Or.inr ⟨p, mem_adjPairs_cons _ hp, h⟩

theorem qualPairs_nil (allowed : List String) : qualPairs allowed [] = [] := rfl

theorem qualPairs_single (allowed : List String) (a : String) :
    qualPairs allowed [a] = [] := rfl

theorem qualPairs_cons2 (allowed : List String) (a b : String) (rest : List String) :
    qualPairs allowed (a :: b :: rest) =
      if isQualPair allowed (a, b) = true then (a, b) :: qualPairs allowed (b :: rest)
      else qualPairs allowed (b :: rest) := by
  rw [qualPairs, adjPairs_cons2, List.filter_cons]
  split <;> rfl

theorem qualPairs_cons_nodash {allowed : List String} {v : String} (rest : List String)
    (hv : startsWithDash v = false) :
    qualPairs allowed (v :: rest) = qualPairs allowed rest := by
  cases rest with
  | nil => rfl
  | cons b t =>
    have hq : isQualPair allowed (v, b) = false := by simp [isQualPair, hv]
    rw [qualPairs_cons2, hq]
    simp

theorem qualPairs_cons_notmem {allowed : List String} {a : String} (rest : List String)
    (ha : allowed.contains a = false) :
    qualPairs allowed (a :: rest) = qualPairs allowed rest := by
  cases rest with
  | nil => rfl
  | cons b t =>
    have ha2 : a ∉ allowed := by simpa using ha
    have hq : isQualPair allowed (a, b) = false := by simp [isQualPair, ha2]
    rw [qualPairs_cons2, hq]
    simp

theorem qualPairs_cons_dashsecond {allowed : List String} (a : String) {v : String}
    (rest : List String) (hv : startsWithDash v = true) :
    qualPairs allowed (a :: v :: rest) = qualPairs allowed (v :: rest) := by
  have hq : isQualPair allowed (a, v) = false := by simp [isQualPair, hv]
  rw [qualPairs_cons2, hq]
  simp

theorem qualPairs_cons_nodashsecond {allowed : List String} {a v : String}
    (rest : List String) (ha : allowed.contains a = true) (hv : startsWithDash v = false) :
    qualPairs allowed (a :: v :: rest) =
      (if startsWithDash a then [(a, v)] else []) ++ qualPairs allowed (v :: rest) := by
  have ha2 : a ∈ allowed := by simpa using ha
  cases hd : startsWithDash a
  · have hq : isQualPair allowed (a, v) = false := by simp [isQualPair, hd]
    rw [qualPairs_cons2, hq]
    simp
  · have hq : isQualPair allowed (a, v) = true := by simp [isQualPair, ha2, hd, hv]
    rw [qualPairs_cons2, hq]
    simp

/-- C4 core lemma: the dash-led flag/value occurrences of the input appear, in
order and adjacently, among the adjacent pairs of the filtering loop's
output. -/
theorem qualPairs_sublist_core (allowed : List String) :
    ∀ l, List.Sublist (qualPairs allowed l) (adjPairs (filterCore allowed l)) := by
  intro l
  induction l using filterCore.induct allowed with
  | case1 =>
    rw [filterCore_nil]
    exact List.nil_sublist _
  | case2 a ha =>
    rw [filterCore_pos_nil ha, qualPairs_single]
    exact List.nil_sublist _
  | case3 a ha v rest2 hv ih =>
    have hv2 : startsWithDash v = false := by simpa using hv
    rw [filterCore_pos_nodash _ ha hv2, qualPairs_cons_nodashsecond _ ha hv2,
      qualPairs_cons_nodash _ hv2, adjPairs_cons2]
    have hrest : List.Sublist (qualPairs allowed rest2)
        (adjPairs (v :: filterCore allowed rest2)) :=
      ih.trans (adjPairs_sublist_cons _ _)
    cases hd : startsWithDash a
    · simpa using hrest.cons (a, v)
    · simpa using hrest.cons₂ (a, v)
  | case4 a ha v rest2 hv ih =>
    have hv2 : startsWithDash v = true := by simpa using hv
    rw [filterCore_pos_dash _ ha hv2, qualPairs_cons_dashsecond _ _ hv2]
    exact ih.trans (adjPairs_sublist_cons _ _)
  | case5 a rest2 ha ih =>
    have ha2 : allowed.contains a = false := by simpa using ha
    rw [filterCore_neg _ ha2, qualPairs_cons_notmem _ ha2]
    exact ih

/-! ### Claim C1 -/

/-- C1: every token of the filter's output is an allowed flag, a configured
custom arg, the cookie token (appended when the toggle is on), or a dash-free
token that immediately follows an allowed-flag occurrence in the input (the
literal value consumed after a kept allowed flag). -/
theorem C1_no_disallowed_token_survives
    (args : List String) (config : AppConfig) (x : String)
    (hx : x ∈ filterArguments args config) :
    x ∈ config.allowed_args ∨ x ∈ config.custom_args ∨
      (config.cookies = true ∧ x = cookieArg config) ∨
      ∃ p ∈ adjPairs args, p.1 ∈ config.allowed_args ∧ p.2 = x ∧
        startsWithDash x = false := by
  rw [filterArguments_eq] at hx
  rcases List.mem_append.mp hx with hx1 | hx2
  · rcases List.mem_append.mp hx1 with hxa | hxb
    · rcases mem_filterCore hxa with h | h
      · exact Or.inl h
      · exact Or.inr (Or.inr (Or.inr h))
    · exact Or.inr (Or.inl hxb)
  · cases hck : config.cookies
    · rw [hck] at hx2
      simp at hx2
    · rw [hck] at hx2
      have hxx : x = cookieArg config := by simpa using hx2
      exact Or.inr (Or.inr (Or.inl ⟨rfl, hxx⟩))

theorem C1_no_disallowed_token_survives_witness :
    "v" ∈ filterArguments ["-a", "v", "-z"] ⟨"t", ["-a"], ["c"], true, "b", defaultLogging⟩ ∧
      ("v" ∈ (⟨"t", ["-a"], ["c"], true, "b", defaultLogging⟩ : AppConfig).allowed_args ∨
        "v" ∈ (⟨"t", ["-a"], ["c"], true, "b", defaultLogging⟩ : AppConfig).custom_args ∨
        ((⟨"t", ["-a"], ["c"], true, "b", defaultLogging⟩ : AppConfig).cookies = true ∧
          "v" = cookieArg ⟨"t", ["-a"], ["c"], true, "b", defaultLogging⟩) ∨
        ∃ p ∈ adjPairs ["-a", "v", "-z"],
          p.1 ∈ (⟨"t", ["-a"], ["c"], true, "b", defaultLogging⟩ : AppConfig).allowed_args ∧
            p.2 = "v" ∧ startsWithDash "v" = false) := by
  have hx : "v" ∈ filterArguments ["-a", "v", "-z"]
      ⟨"t", ["-a"], ["c"], true, "b", defaultLogging⟩ := by
    rw [filterArguments_eq]
    decide
  exact ⟨hx, C1_no_disallowed_token_survives _ _ _ hx⟩

/-! ### Claim C4 -/

/-- C4 (amended): for every allowed flag that itself begins with a dash and is
immediately followed in the input by a token not starting with a dash, the
output contains that flag occurrence immediately followed by that value, and
those occurrences appear in their original input order (the list of such
pairs is a sublist of the adjacent pairs of the output). -/
theorem C4_flag_value_pairs_kept_in_order (args : List String) (config : AppConfig) :
    List.Sublist (qualPairs config.allowed_args args)
      (adjPairs (filterArguments args config)) := by
  rw [filterArguments_eq]
  exact ((qualPairs_sublist_core _ args).trans (adjPairs_append_sublist _ _)).trans
    (adjPairs_append_sublist _ _)

/-- C4 counterexample to the claim as stated: with allowed flag "x" (which
does not begin with a dash) and input ["x", "x", "v"], the second occurrence
of the allowed flag "x" is immediately followed by the dash-free token "v",
yet the filter's output contains no adjacent occurrence of "x" followed by
"v" (the second "x" was consumed as the value of the first, and "v" was
dropped). -/
theorem C4_counterexample :
    ("x", "v") ∈ adjPairs ["x", "x", "v"] ∧
      "x" ∈ (⟨"t", ["x"], [], false, "b", defaultLogging⟩ : AppConfig).allowed_args ∧
      startsWithDash "v" = false ∧
      ("x", "v") ∉ adjPairs (filterArguments ["x", "x", "v"]
        ⟨"t", ["x"], [], false, "b", defaultLogging⟩) := by
  refine ⟨by decide, by decide, by decide, ?_⟩
  rw [filterArguments_eq]
  decide

/-! ### Claim C7 -/

theorem cookieArg_data (config : AppConfig) :
    (cookieArg config).data = "--cookies-from-browser=".data ++ config.cookies_browser.data :=
  String.data_append _ _

theorem startsWithDash_cookieArg (config : AppConfig) :
    startsWithDash (cookieArg config) = true := by
  unfold startsWithDash
  rw [cookieArg_data]
  rfl

/-- C7 (amended): provided the cookie token string is neither one of the
configured custom args nor an allowed flag, the filter's output ends with the
token `--cookies-from-browser=<browser>` iff the cookie toggle is true. -/
theorem C7_cookie_token_iff_toggle (args : List String) (config : AppConfig)
    (hc1 : cookieArg config ∉ config.custom_args)
    (hc2 : cookieArg config ∉ config.allowed_args) :
    ((filterArguments args config).getLast? = some (cookieArg config)) ↔
      config.cookies = true := by
  constructor
  · intro hlast
    cases hck : config.cookies
    · rw [filterArguments_eq, hck] at hlast
      simp only [Bool.false_eq_true, if_false, List.append_nil] at hlast
      have hmem : cookieArg config ∈
          filterCore config.allowed_args args ++ config.custom_args := by
        rcases List.mem_getLast?_eq_getLast (by rw [hlast]; rfl) with ⟨hne, hx⟩
        rw [hx]
        exact List.getLast_mem hne
      rcases List.mem_append.mp hmem with h | h
      · rcases mem_filterCore h with h2 | ⟨p, _, _, hp2, hdash⟩
        · exact absurd h2 hc2
        · rw [startsWithDash_cookieArg] at hdash
          exact absurd hdash (by simp)
      · exact absurd h hc1
    · rfl
  · intro hck
    rw [filterArguments_eq, hck]
    simp only [if_true]
    rw [List.getLast?_append_cons]
    rfl

theorem C7_cookie_token_iff_toggle_witness :
    cookieArg ⟨"t", ["-a"], ["-x"], true, "b", defaultLogging⟩ ∉
        (⟨"t", ["-a"], ["-x"], true, "b", defaultLogging⟩ : AppConfig).custom_args ∧
      cookieArg ⟨"t", ["-a"], ["-x"], true, "b", defaultLogging⟩ ∉
        (⟨"t", ["-a"], ["-x"], true, "b", defaultLogging⟩ : AppConfig).allowed_args ∧
      (((filterArguments ["-a"] ⟨"t", ["-a"], ["-x"], true, "b", defaultLogging⟩).getLast? =
          some (cookieArg ⟨"t", ["-a"], ["-x"], true, "b", defaultLogging⟩)) ↔
        (⟨"t", ["-a"], ["-x"], true, "b", defaultLogging⟩ : AppConfig).cookies = true) :=
  ⟨by decide, by decide,
    C7_cookie_token_iff_toggle ["-a"] _ (by decide) (by decide)⟩

/-- C7 counterexample to the claim as stated: with the cookie toggle off but a
custom arg equal to the cookie token string, the output still ends with the
cookie token, so the "iff" fails for this policy. -/
theorem C7_counterexample :
    ¬ (((filterArguments []
          ⟨"t", [], ["--cookies-from-browser=firefox"], false, "firefox",
            defaultLogging⟩).getLast? =
        some (cookieArg
          ⟨"t", [], ["--cookies-from-browser=firefox"], false, "firefox",
            defaultLogging⟩)) ↔
      (⟨"t", [], ["--cookies-from-browser=firefox"], false, "firefox",
        defaultLogging⟩ : AppConfig).cookies = true) := by
  rw [filterArguments_eq]
  decide

/-! ### Claim C8 -/

/-- The first token kept by the filtering loop is always an allowed flag. -/
theorem head_filterCore_mem {allowed : List String} :
    ∀ {l x}, (filterCore allowed l).head? = some x → x ∈ allowed := by
  intro l
  induction l using filterCore.induct allowed with
  | case1 =>
    intro x hx
    rw [filterCore_nil] at hx
    simp at hx
  | case2 a ha =>
    intro x hx
    rw [filterCore_pos_nil ha] at hx
    have : a = x := by simpa using hx
    subst this
    simpa using ha
  | case3 a ha v rest2 hv ih =>
    intro x hx
    have hv2 : startsWithDash v = false := by simpa using hv
    rw [filterCore_pos_nodash _ ha hv2] at hx
    have : a = x := by simpa using hx
    subst this
    simpa using ha
  | case4 a ha v rest2 hv ih =>
    intro x hx
    have hv2 : startsWithDash v = true := by simpa using hv
    rw [filterCore_pos_dash _ ha hv2] at hx
    have : a = x := by simpa using hx
    subst this
    simpa using ha
  | case5 a rest2 ha ih =>
    intro x hx
    have ha2 : allowed.contains a = false := by simpa using ha
    rw [filterCore_neg _ ha2] at hx
    exact ih hx

/-- A list with no allowed token filters to nothing. -/
theorem filterCore_eq_nil_of_disjoint {allowed : List String} :
    ∀ {m : List String}, (∀ x ∈ m, allowed.contains x = false) →
      filterCore allowed m = [] := by
  intro m
  induction m with
  | nil => intro _; rfl
  | cons a t ih =>
    intro hm
    rw [filterCore_neg _ (hm a (List.mem_cons_self _ _))]
    exact ih fun x hx => hm x (List.mem_cons_of_mem _ hx)

/-- Refiltering a filtered prefix: when every allowed flag starts with a dash
and the suffix `m` starts with a dash (if nonempty), filtering distributes
over `filterCore allowed l ++ m`. -/
theorem filterCore_append_of_dash {allowed : List String}
    (hallow : ∀ a ∈ allowed, startsWithDash a = true)
    {m : List String} (hm : ∀ x, m.head? = some x → startsWithDash x = true) :
    ∀ l, filterCore allowed (filterCore allowed l ++ m) =
      filterCore allowed l ++ filterCore allowed m := by
  intro l
  induction l using filterCore.induct allowed with
  | case1 =>
    rw [filterCore_nil]
    simp
  | case2 a ha =>
    rw [filterCore_pos_nil ha]
    cases m with
    | nil => rw [List.append_nil, filterCore_nil, List.append_nil, filterCore_pos_nil ha]
    | cons h t =>
      rw [List.singleton_append, filterCore_pos_dash _ ha (hm h rfl), List.singleton_append]
  | case3 a ha v rest2 hv ih =>
    have hv2 : startsWithDash v = false := by simpa using hv
    rw [filterCore_pos_nodash _ ha hv2, List.cons_append, List.cons_append,
      filterCore_pos_nodash _ ha hv2, ih, List.cons_append, List.cons_append]
  | case4 a ha v rest2 hv ih =>
    have hv2 : startsWithDash v = true := by simpa using hv
    rw [filterCore_pos_dash _ ha hv2]
    cases hcv : filterCore allowed (v :: rest2) with
    | nil =>
      cases m with
      | nil =>
        rw [List.append_nil, filterCore_pos_nil ha, filterCore_nil, List.append_nil]
      | cons h t =>
        rw [List.singleton_append, filterCore_pos_dash _ ha (hm h rfl)]
        simp
    | cons h t =>
      have hhead : h ∈ allowed := head_filterCore_mem (by rw [hcv]; rfl)
      rw [hcv] at ih
      rw [List.cons_append] at ih
      rw [List.cons_append, List.cons_append, filterCore_pos_dash _ ha (hallow h hhead), ih]
      simp
  | case5 a rest2 ha ih =>
    have ha2 : allowed.contains a = false := by simpa using ha
    rw [filterCore_neg _ ha2]
    exact ih

/-- C8 (amended): filtering is idempotent provided every allowed flag begins
with a dash, every custom arg begins with a dash and is not an allowed flag,
and the cookie token is not an allowed flag. (Without these provisos a custom
arg or cookie token of the first pass can be re-parsed as a flag value in the
second pass; see the counterexample.) -/
theorem C8_filter_idempotent (args : List String) (config : AppConfig)
    (hallow : ∀ a ∈ config.allowed_args, startsWithDash a = true)
    (hcustom : ∀ c ∈ config.custom_args,
      startsWithDash c = true ∧ config.allowed_args.contains c = false)
    (hcookie : config.allowed_args.contains (cookieArg config) = false) :
    filterArguments (filterArguments args config) config =
      filterArguments args config := by
  have hassoc : filterArguments args config =
      filterCore config.allowed_args args ++
        (config.custom_args ++ (if config.cookies then [cookieArg config] else [])) := by
    rw [filterArguments_eq, List.append_assoc]
  set m := config.custom_args ++ (if config.cookies then [cookieArg config] else [])
    with hm_def
  have hm : ∀ x, m.head? = some x → startsWithDash x = true := by
    intro x hx
    rw [hm_def] at hx
    cases hcu : config.custom_args with
    | nil =>
      rw [hcu, List.nil_append] at hx
      cases hck : config.cookies
      · rw [hck] at hx
        simp at hx
      · rw [hck] at hx
        simp only [if_true] at hx
        have hcx : cookieArg config = x := by simpa using hx
        rw [← hcx, startsWithDash_cookieArg]
    | cons c t =>
      rw [hcu, List.cons_append] at hx
      have hcx : c = x := by simpa using hx
      rw [← hcx]
      exact (hcustom c (by rw [hcu]; exact List.mem_cons_self _ _)).1
  have hdisj : ∀ x ∈ m, config.allowed_args.contains x = false := by
    intro x hx
    rw [hm_def] at hx
    rcases List.mem_append.mp hx with h | h
    · exact (hcustom x h).2
    · cases hck : config.cookies
      · rw [hck] at h
        simp at h
      · rw [hck] at h
        have hxc : x = cookieArg config := by simpa using h
        rw [hxc]
        exact hcookie
  rw [hassoc, filterArguments_eq, filterCore_append_of_dash hallow hm,
    filterCore_eq_nil_of_disjoint hdisj, List.append_nil, List.append_assoc, hm_def]

theorem C8_filter_idempotent_witness :
    (∀ a ∈ (⟨"t", ["-a"], ["-x"], true, "b", defaultLogging⟩ : AppConfig).allowed_args,
        startsWithDash a = true) ∧
      (∀ c ∈ (⟨"t", ["-a"], ["-x"], true, "b", defaultLogging⟩ : AppConfig).custom_args,
        startsWithDash c = true ∧
          (⟨"t", ["-a"], ["-x"], true, "b", defaultLogging⟩ : AppConfig).allowed_args.contains
            c = false) ∧
      (⟨"t", ["-a"], ["-x"], true, "b", defaultLogging⟩ : AppConfig).allowed_args.contains
          (cookieArg ⟨"t", ["-a"], ["-x"], true, "b", defaultLogging⟩) = false ∧
      filterArguments
          (filterArguments ["-a", "v"] ⟨"t", ["-a"], ["-x"], true, "b", defaultLogging⟩)
          ⟨"t", ["-a"], ["-x"], true, "b", defaultLogging⟩ =
        filterArguments ["-a", "v"] ⟨"t", ["-a"], ["-x"], true, "b", defaultLogging⟩ :=
  ⟨by decide, by decide, by decide,
    C8_filter_idempotent _ _ (by decide) (by decide) (by decide)⟩

/-- C8 counterexample to the claim as stated: with allowed flag "-a" and the
dash-free custom arg "v", filtering once yields ["-a", "v"], but filtering a
second time re-parses the appended custom arg "v" as the value of "-a" and
appends another copy, yielding ["-a", "v", "v"]. -/
theorem C8_counterexample :
    filterArguments
        (filterArguments ["-a"] ⟨"t", ["-a"], ["v"], false, "b", defaultLogging⟩)
        ⟨"t", ["-a"], ["v"], false, "b", defaultLogging⟩ ≠
      filterArguments ["-a"] ⟨"t", ["-a"], ["v"], false, "b", defaultLogging⟩ := by
  have h1 : filterArguments ["-a"] ⟨"t", ["-a"], ["v"], false, "b", defaultLogging⟩ =
      ["-a", "v"] := by
    rw [filterArguments_eq]
    decide
  rw [h1, filterArguments_eq]
  decide

/-! ### Claim C5 -/

/-- C5: when the stored version record carries a last-check timestamp less
than one day old, `check_and_update` returns success immediately and the
whole state — version file, binary, and network request counter — is left
untouched (zero network calls, record unchanged). -/
theorem C5_fresh_check_is_noop (env : DlEnv) (s : DlState) (vi : VersionInfo) (lc : Int)
    (hload : loadVersionInfo s = .ok vi)
    (hlc : vi.last_check = some lc)
    (hfresh : env.now - lc < oneDay) :
    checkAndUpdate env s = (.ok (), s) := by
  have hsc : shouldCheckForUpdates env.now vi = false := by
    unfold shouldCheckForUpdates
    rw [hlc]
    simp only [decide_eq_false_iff_not]
    omega
  unfold checkAndUpdate
  rw [hload]
  simp [hsc]

theorem C5_fresh_check_is_noop_witness :
    loadVersionInfo ⟨.content (.parsable ⟨"v1", some 500⟩), none, 0⟩ =
        .ok ⟨"v1", some 500⟩ ∧
      (⟨"v1", some 500⟩ : VersionInfo).last_check = some 500 ∧
      (1000 : Int) - 500 < oneDay ∧
      checkAndUpdate
          ⟨1000, .error ⟨true, "unreachable"⟩, fun _ => .error ⟨true, "unreachable"⟩, true⟩
          ⟨.content (.parsable ⟨"v1", some 500⟩), none, 0⟩ =
        (.ok (), ⟨.content (.parsable ⟨"v1", some 500⟩), none, 0⟩) :=
  ⟨rfl, rfl, by decide,
    C5_fresh_check_is_noop _ _ ⟨"v1", some 500⟩ 500 rfl rfl (by decide)⟩

/-! ### Claim C9 -/

/-- C9: when the version record file exists but its contents do not parse,
loading succeeds with the default record (empty version, no last-check
timestamp), which makes the next update check due; only a read failure is
reported as an error. -/
theorem C9_unparsable_record_defaults (s : DlState) (raw : String) (now : Int)
    (h : s.versionFile = .content (.unparsable raw)) :
    loadVersionInfo s = .ok versionInfoDefault ∧
      versionInfoDefault.version = "" ∧
      versionInfoDefault.last_check = none ∧
      shouldCheckForUpdates now versionInfoDefault = true ∧
      ∀ e : IoError, loadVersionInfo { s with versionFile := .readError e } =
        .error (ioErrorToAppError e) := by
  refine ⟨?_, rfl, rfl, rfl, fun e => rfl⟩
  unfold loadVersionInfo
  rw [h]
  rfl

theorem C9_unparsable_record_defaults_witness :
    (⟨.content (.unparsable "not json"), none, 0⟩ : DlState).versionFile =
        .content (.unparsable "not json") ∧
      (loadVersionInfo ⟨.content (.unparsable "not json"), none, 0⟩ =
          .ok versionInfoDefault ∧
        versionInfoDefault.version = "" ∧
        versionInfoDefault.last_check = none ∧
        shouldCheckForUpdates 7 versionInfoDefault = true ∧
        ∀ e : IoError,
          loadVersionInfo
              { (⟨.content (.unparsable "not json"), none, 0⟩ : DlState) with
                versionFile := .readError e } =
            .error (ioErrorToAppError e)) :=
  ⟨rfl, C9_unparsable_record_defaults _ "not json" 7 rfl⟩

/-! ### Claim C6 -/

theorem downloadLatest_persists (env : DlEnv) (s : DlState)
    (hok : (downloadLatest env s).1 = .ok ()) :
    ∃ rel, env.release = .ok rel ∧
      (downloadLatest env s).2.versionFile =
        .content (.parsable ⟨rel.tag_name, some env.now⟩) := by
  cases hr : env.release with
  | error e =>
    exfalso
    simp [downloadLatest, getLatestRelease, hr] at hok
  | ok rel =>
    cases hf : findWindowsExecutable rel with
    | error e =>
      exfalso
      simp [downloadLatest, getLatestRelease, hr, hf] at hok
    | ok asset =>
      cases hb : env.fileBytes asset.browser_download_url with
      | error e =>
        exfalso
        simp [downloadLatest, getLatestRelease, downloadFile, hr, hf, hb] at hok
      | ok bytes =>
        cases hw : env.writeOk
        · exfalso
          simp [downloadLatest, getLatestRelease, downloadFile, saveExecutable,
            hr, hf, hb, hw] at hok
        · refine ⟨rel, rfl, ?_⟩
          simp [downloadLatest, getLatestRelease, downloadFile, saveExecutable,
            saveVersionInfo, saveVersionInfoToFile, hr, hf, hb, hw]

/-- C6: after every completed remote check performed by `check_and_update`
(both the version-match and the version-mismatch outcome), the version
record persisted to disk carries the refreshed last-check timestamp, and
carries the newly downloaded tag exactly on the mismatch (download) outcome;
moreover, every completed `download_latest` persists a record with the
downloaded tag and the refreshed timestamp. -/
theorem C6_completed_check_persists_record (env : DlEnv) (s : DlState) (vi : VersionInfo)
    (hload : loadVersionInfo s = .ok vi)
    (hsc : shouldCheckForUpdates env.now vi = true)
    (hok : (checkAndUpdate env s).1 = .ok ()) :
    (∃ rel, env.release = .ok rel ∧
      (checkAndUpdate env s).2.versionFile =
        .content (.parsable
          ⟨if vi.version ≠ rel.tag_name then rel.tag_name else vi.version,
            some env.now⟩)) ∧
    ∀ s2 : DlState, (downloadLatest env s2).1 = .ok () →
      ∃ rel, env.release = .ok rel ∧
        (downloadLatest env s2).2.versionFile =
          .content (.parsable ⟨rel.tag_name, some env.now⟩) := by
  refine ⟨?_, fun s2 h => downloadLatest_persists env s2 h⟩
  cases hr : env.release with
  | error e =>
    exfalso
    simp [checkAndUpdate, hload, hsc, getLatestVersion, getLatestRelease, hr] at hok
  | ok rel =>
    by_cases hv : vi.version = rel.tag_name
    · refine ⟨rel, rfl, ?_⟩
      cases hw : env.writeOk
      · exfalso
        simp [checkAndUpdate, hload, hsc, getLatestVersion, getLatestRelease, hr, hv,
          saveVersionInfoToFile, hw] at hok
      · simp [checkAndUpdate, hload, hsc, getLatestVersion, getLatestRelease, hr, hv,
          saveVersionInfoToFile, hw]
    · have hok2 : (downloadLatest env { s with netCalls := s.netCalls + 1 }).1 =
          .ok () := by
        simpa [checkAndUpdate, hload, hsc, getLatestVersion, getLatestRelease, hr, hv]
          using hok
      rcases downloadLatest_persists env _ hok2 with ⟨rel2, hrel2, hvf⟩
      have hrr : rel2 = rel := by
        rw [hr] at hrel2
        exact (Except.ok.inj hrel2).symm
      subst hrr
      refine ⟨rel2, rfl, ?_⟩
      rw [if_pos hv]
      have hcc : (checkAndUpdate env s).2 =
          (downloadLatest env { s with netCalls := s.netCalls + 1 }).2 := by
        simp [checkAndUpdate, hload, hsc, getLatestVersion, getLatestRelease, hr, hv]
      rw [hcc, hvf]

theorem C6_completed_check_persists_record_witness :
    loadVersionInfo ⟨.content (.parsable ⟨"v1", none⟩), none, 0⟩ = .ok ⟨"v1", none⟩ ∧
      shouldCheckForUpdates
        (⟨1000, .ok ⟨"v2", [⟨"yt-dlp.exe", "u"⟩]⟩, fun _ => .ok [7], true⟩ : DlEnv).now
        ⟨"v1", none⟩ = true ∧
      (checkAndUpdate ⟨1000, .ok ⟨"v2", [⟨"yt-dlp.exe", "u"⟩]⟩, fun _ => .ok [7], true⟩
          ⟨.content (.parsable ⟨"v1", none⟩), none, 0⟩).1 = .ok () ∧
      ((∃ rel,
          (⟨1000, .ok ⟨"v2", [⟨"yt-dlp.exe", "u"⟩]⟩, fun _ => .ok [7], true⟩ :
            DlEnv).release = .ok rel ∧
          (checkAndUpdate ⟨1000, .ok ⟨"v2", [⟨"yt-dlp.exe", "u"⟩]⟩, fun _ => .ok [7], true⟩
              ⟨.content (.parsable ⟨"v1", none⟩), none, 0⟩).2.versionFile =
            .content (.parsable
              ⟨if (⟨"v1", none⟩ : VersionInfo).version ≠ rel.tag_name then rel.tag_name
                else (⟨"v1", none⟩ : VersionInfo).version, some 1000⟩)) ∧
        ∀ s2 : DlState,
          (downloadLatest ⟨1000, .ok ⟨"v2", [⟨"yt-dlp.exe", "u"⟩]⟩, fun _ => .ok [7], true⟩
              s2).1 = .ok () →
          ∃ rel,
            (⟨1000, .ok ⟨"v2", [⟨"yt-dlp.exe", "u"⟩]⟩, fun _ => .ok [7], true⟩ :
              DlEnv).release = .ok rel ∧
            (downloadLatest
                ⟨1000, .ok ⟨"v2", [⟨"yt-dlp.exe", "u"⟩]⟩, fun _ => .ok [7], true⟩
                s2).2.versionFile = .content (.parsable ⟨rel.tag_name, some 1000⟩)) :=
  ⟨rfl, rfl, rfl,
    C6_completed_check_persists_record _ _ ⟨"v1", none⟩ rfl rfl rfl⟩

/-! ### Claim C2 -/

theorem waitWithTimeout_times_out (c : ChildModel)
    (hc : ∀ e ∈ c.exitTime, 30000 < e) :
    ∀ elapsed, elapsed % 200 = 0 → elapsed ≤ 30000 →
      waitWithTimeout c 30000 elapsed = ⟨.error .timedOut, true, true⟩ := by
  have htry : ∀ t, t ≤ 30000 → tryWaitAt c t = none := by
    intro t ht
    cases hce : c.exitTime with
    | none => simp [tryWaitAt, hce]
    | some e =>
      have he : 30000 < e := hc e (by rw [hce]; rfl)
      simp only [tryWaitAt, hce, ite_eq_right_iff]
      intro hle
      omega
  have key : ∀ n elapsed, 30000 - elapsed ≤ n → elapsed % 200 = 0 → elapsed ≤ 30000 →
      waitWithTimeout c 30000 elapsed = ⟨.error .timedOut, true, true⟩ := by
    intro n
    induction n with
    | zero =>
      intro elapsed h1 h2 h3
      have he : elapsed = 30000 := by omega
      subst he
      rw [waitWithTimeout, htry 30000 (Nat.le_refl _)]
      simp
    | succ n ih =>
      intro elapsed h1 h2 h3
      rw [waitWithTimeout, htry elapsed h3]
      by_cases h4 : 30000 ≤ elapsed
      · simp [h4]
      · simp only [h4, if_false]
        exact ih (elapsed + 200) (by omega) (by omega) (by omega)
  intro elapsed h1 h2
  exact key (30000 - elapsed) elapsed (Nat.le_refl _) h1 h2

theorem timeoutMsg_ne_exitFailMsg : ∀ code : Option Int, timeoutMsg ≠ exitFailMsg code := by
  intro code
  cases code with
  | none => decide
  | some c =>
    intro h
    have hd : timeoutMsg.data =
        (YT_DLP_EXECUTABLE ++ " exited with non-zero status code: ").data ++
          (toString c).data := by
      rw [h]
      exact String.data_append _ _
    have hfalse : timeoutMsg.data.take
        ((YT_DLP_EXECUTABLE ++ " exited with non-zero status code: ").data.length) =
        (YT_DLP_EXECUTABLE ++ " exited with non-zero status code: ").data := by
      rw [hd, List.take_left]
    exact absurd hfalse (by decide)

/-- C2: a child that has not exited within the 30-second ceiling is killed
and reaped by `wait_with_timeout`, which returns a TimedOut error (not a
normal status); `execute` then fails with the Execution error carrying the
timeout message, and that message differs from the one produced for every
non-zero exit status, so the two outcomes are distinguishable. -/
theorem C2_timeout_kills_reaps_and_distinguishes (c : ChildModel)
    (hc : ∀ e ∈ c.exitTime, 30000 < e) :
    waitWithTimeout c 30000 0 = ⟨.error .timedOut, true, true⟩ ∧
      (∀ (env : ExecEnv) (args : List String),
        isYtDlpRunning env.selfPid env.procs env.exePath = false → args ≠ [] →
        env.exeExists = true → env.spawn = .ok c →
        executeM env args = (.error (.Execution timeoutMsg), true)) ∧
      ∀ code : Option Int,
        AppError.Execution timeoutMsg ≠ AppError.Execution (exitFailMsg code) := by
  have hw : waitWithTimeout c 30000 0 = ⟨.error .timedOut, true, true⟩ :=
    waitWithTimeout_times_out c hc 0 rfl (by omega)
  refine ⟨hw, ?_, ?_⟩
  · intro env args hrun hne hex hspawn
    have hie : args.isEmpty = false := by
      cases args with
      | nil => exact absurd rfl hne
      | cons a t => rfl
    simp [executeM, hrun, hie, hex, hspawn, hw]
  · intro code h
    exact timeoutMsg_ne_exitFailMsg code (AppError.Execution.inj h)

theorem C2_timeout_kills_reaps_and_distinguishes_witness :
    (∀ e ∈ (⟨none, ⟨some 0⟩⟩ : ChildModel).exitTime, 30000 < e) ∧
      waitWithTimeout ⟨none, ⟨some 0⟩⟩ 30000 0 = ⟨.error .timedOut, true, true⟩ ∧
      executeM ⟨1, [], ["tools", "yt-dlp.exe"], true, .ok ⟨none, ⟨some 0⟩⟩⟩ ["https://x"] =
        (.error (.Execution timeoutMsg), true) ∧
      AppError.Execution timeoutMsg ≠ AppError.Execution (exitFailMsg (some 2)) := by
  have hc : ∀ e ∈ (⟨none, ⟨some 0⟩⟩ : ChildModel).exitTime, 30000 < e := by simp
  have h := C2_timeout_kills_reaps_and_distinguishes ⟨none, ⟨some 0⟩⟩ hc
  exact ⟨hc, h.1, h.2.1 _ _ rfl (by decide) rfl rfl, h.2.2 (some 2)⟩

/-! ### Claim C3 -/

/-- C3: the preconditions of `execute` are checked in order and each
short-circuits: a detected running duplicate of the managed executable
returns success without spawning anything (even if later checks would fail);
otherwise an empty argument list returns success without spawning; otherwise
a missing target executable returns a FileNotFound failure, still without
spawning. -/
theorem C3_execute_preconditions (env : ExecEnv) (args : List String) :
    (isYtDlpRunning env.selfPid env.procs env.exePath = true →
      executeM env args = (.ok (), false)) ∧
    (isYtDlpRunning env.selfPid env.procs env.exePath = false → args = [] →
      executeM env args = (.ok (), false)) ∧
    (isYtDlpRunning env.selfPid env.procs env.exePath = false → args ≠ [] →
      env.exeExists = false →
      executeM env args = (.error (.FileNotFound ("Executable not found: " ++
        String.intercalate "/" env.exePath)), false)) := by
  refine ⟨fun h => ?_, fun h he => ?_, fun h hne hex => ?_⟩
  · simp [executeM, h]
  · subst he
    simp [executeM, h]
  · have hie : args.isEmpty = false := by
      cases args with
      | nil => exact absurd rfl hne
      | cons a t => rfl
    simp [executeM, h, hie, hex]

theorem C3_execute_preconditions_witness :
    isYtDlpRunning 1 [⟨2, "yt-dlp.exe", none⟩] ["tools", "yt-dlp.exe"] = true ∧
      executeM ⟨1, [⟨2, "yt-dlp.exe", none⟩], ["tools", "yt-dlp.exe"], false,
          .error ⟨.other, "e"⟩⟩ ["https://x"] = (.ok (), false) ∧
      executeM ⟨1, [], ["tools", "yt-dlp.exe"], false, .error ⟨.other, "e"⟩⟩ [] =
        (.ok (), false) ∧
      executeM ⟨1, [], ["tools", "yt-dlp.exe"], false, .error ⟨.other, "e"⟩⟩
          ["https://x"] =
        (.error (.FileNotFound ("Executable not found: " ++
          String.intercalate "/" ["tools", "yt-dlp.exe"])), false) :=
  ⟨by decide,
    (C3_execute_preconditions _ _).1 (by decide),
    (C3_execute_preconditions _ _).2.1 (by decide) rfl,
    (C3_execute_preconditions _ _).2.2 (by decide) (by decide) rfl⟩

/-! ### Claim C10 -/

theorem procMatches_iff (selfPid : Nat) (tlc : String) (p : ProcInfo) :
    procMatches selfPid tlc p = true ↔
      p.pid ≠ selfPid ∧
        ((∃ fn, p.exe.bind fileName = some fn ∧ asciiLower fn = tlc) ∨
          asciiLower p.name = tlc) := by
  unfold procMatches
  by_cases hp : p.pid = selfPid
  · simp [hp]
  · have hb : (p.pid == selfPid) = false := by simpa using hp
    rw [hb]
    simp only [Bool.false_eq_true, if_false]
    cases hx : p.exe with
    | none => simp [hp, Option.bind]
    | some exePath =>
      cases hf : fileName exePath with
      | none => simp [hp, hf, Option.bind]
      | some procFile =>
        by_cases hm : asciiLower procFile = tlc
        · simp [hp, hf, hm, Option.bind]
        · simp [hp, hf, hm, Option.bind]

/-- C10: the duplicate-instance detector matches by case-insensitive file
name only, never by full path: a process other than the supervisor itself
counts as a running duplicate iff the file name of its executable path or,
as a fallback, its enumerated process name equals the managed executable's
file name case-insensitively; and the detector's verdict does not depend on
the directory part of the target path. -/
theorem C10_detector_matches_by_file_name_only (selfPid : Nat) (procs : List ProcInfo)
    (targetPath : List String) :
    (isYtDlpRunning selfPid procs targetPath = true ↔
      ∃ p ∈ procs, p.pid ≠ selfPid ∧
        ((∃ fn, p.exe.bind fileName = some fn ∧
            asciiLower fn = asciiLower ((fileName targetPath).getD YT_DLP_EXECUTABLE)) ∨
          asciiLower p.name =
            asciiLower ((fileName targetPath).getD YT_DLP_EXECUTABLE))) ∧
    ∀ (dir1 dir2 : List String) (fn : String),
      isYtDlpRunning selfPid procs (dir1 ++ [fn]) =
        isYtDlpRunning selfPid procs (dir2 ++ [fn]) := by
  constructor
  · unfold isYtDlpRunning
    rw [List.any_eq_true]
    constructor
    · rintro ⟨p, hp, hm⟩
      exact ⟨p, hp, (procMatches_iff _ _ p).mp hm⟩
    · rintro ⟨p, hp, hm⟩
      exact ⟨p, hp, (procMatches_iff _ _ p).mpr hm⟩
  · intro d1 d2 fn
    unfold isYtDlpRunning
    have h1 : fileName (d1 ++ [fn]) = some fn := by
      unfold fileName
      rw [List.getLast?_append_cons]
      rfl
    have h2 : fileName (d2 ++ [fn]) = some fn := by
      unfold fileName
      rw [List.getLast?_append_cons]
      rfl
    rw [h1, h2]
